import Mathlib

/-!
# makeicon asset-generation pipeline: a shallow embedding

This file embeds the core asset-generation pipeline of the makeicon
repository (`src/components/makeicon/icon-lab.tsx`, `src/lib/makeicon/packs.ts`)
in Lean and proves properties of the embedded definitions.

Conventions of the embedding:
* JavaScript numbers used for geometry are modelled as rationals (`ℚ`);
  integer-valued results of `Math.round` / `Math.max` are `ℤ`.
* `Math.round x` is `⌊x + 1/2⌋` (JS rounds half-way cases toward `+∞`).
* Byte buffers (`Uint8Array`, `Blob` contents) are `List ℕ`.
* External collaborators that the code calls but that are not part of the
  repository (the canvas encoder `canvas.toBlob`, the `fflate` zip
  serializer) are parameters of the embedded functions, so theorems hold
  for every implementation of the collaborator.
* Fallible code returns `Except String`.
-/

namespace MakeIcon

/-- JavaScript `Math.round`: rounds to the nearest integer, half-way cases
toward `+∞`, i.e. `⌊x + 1/2⌋`. -/
def jsRound (x : ℚ) : ℤ := ⌊x + 1/2⌋

/-- The two fit modes of the pipeline (`FitMode = "contain" | "cover"`). -/
inductive FitMode where
  | contain
  | cover
deriving DecidableEq, Repr

/-- Target encoding formats accepted by `rasterize` (`"png" | "webp"`). -/
inductive Format where
  | png
  | webp
deriving DecidableEq, Repr

/-- A decoded source image (`LoadedSource`): only the pixel dimensions of
the decoded bitmap are relevant to the core pipeline. -/
structure LoadedSource where
  width : ℕ
  height : ℕ
deriving DecidableEq, Repr

/-- The placement geometry computed by `rasterize`
(icon-lab.tsx lines 304–317): padding, inner target box, scale factor,
draw size and centered draw offset. -/
structure Geometry where
  padding : ℤ
  targetW : ℤ
  targetH : ℤ
  scale : ℚ
  drawW : ℤ
  drawH : ℤ
  dx : ℤ
  dy : ℤ
deriving DecidableEq, Repr

/-- The geometry computation of `rasterize`, translated line by line from
icon-lab.tsx:

```
const padding = Math.round(Math.min(width, height) * paddingRatio);
const targetW = Math.max(1, width - padding * 2);
const targetH = Math.max(1, height - padding * 2);
const scale =
  fit === "cover"
    ? Math.max(targetW / source.width, targetH / source.height)
    : Math.min(targetW / source.width, targetH / source.height);
const drawW = Math.max(1, Math.round(source.width * scale));
const drawH = Math.max(1, Math.round(source.height * scale));
const dx = Math.round((width - drawW) / 2);
const dy = Math.round((height - drawH) / 2);
```
-/
def rasterGeometry (width height : ℕ) (fit : FitMode) (paddingRatio : ℚ)
    (srcW srcH : ℕ) : Geometry :=
  let padding : ℤ := jsRound (min (width : ℚ) (height : ℚ) * paddingRatio)
  let targetW : ℤ := max 1 ((width : ℤ) - padding * 2)
  let targetH : ℤ := max 1 ((height : ℤ) - padding * 2)
  let scale : ℚ :=
    if fit = FitMode.cover then
      max ((targetW : ℚ) / (srcW : ℚ)) ((targetH : ℚ) / (srcH : ℚ))
    else
      min ((targetW : ℚ) / (srcW : ℚ)) ((targetH : ℚ) / (srcH : ℚ))
  let drawW : ℤ := max 1 (jsRound ((srcW : ℚ) * scale))
  let drawH : ℤ := max 1 (jsRound ((srcH : ℚ) * scale))
  let dx : ℤ := jsRound (((width : ℤ) - drawW : ℤ) / (2 : ℚ))
  let dy : ℤ := jsRound (((height : ℤ) - drawH : ℤ) / (2 : ℚ))
  ⟨padding, targetW, targetH, scale, drawW, drawH, dx, dy⟩

end MakeIcon

namespace MakeIcon

/-- **C1** — The Rasterizer computes geometry exactly as the spec states:
`pad = round(min(W,H)*p)`, `targetW = max(1, W-2*pad)`,
`targetH = max(1, H-2*pad)`; `scale = min(targetW/srcW, targetH/srcH)` for
`contain` and `max(...)` for `cover`; `drawW = round(srcW*scale)`,
`drawH = round(srcH*scale)` each floored at 1; and
`dx = round((W-drawW)/2)`, `dy = round((H-drawH)/2)`. Each conjunct equates
a field of the code's `rasterGeometry` with the spec's formula. -/
theorem rasterGeometry_matches_spec (W H : ℕ) (fit : FitMode) (p : ℚ)
    (srcW srcH : ℕ) :
    let g := rasterGeometry W H fit p srcW srcH
    g.padding = jsRound (min (W : ℚ) (H : ℚ) * p) ∧
    g.targetW = max 1 ((W : ℤ) - 2 * g.padding) ∧
    g.targetH = max 1 ((H : ℤ) - 2 * g.padding) ∧
    g.scale = (if fit = FitMode.contain then
        min ((g.targetW : ℚ) / (srcW : ℚ)) ((g.targetH : ℚ) / (srcH : ℚ))
      else
        max ((g.targetW : ℚ) / (srcW : ℚ)) ((g.targetH : ℚ) / (srcH : ℚ))) ∧
    g.drawW = max 1 (jsRound ((srcW : ℚ) * g.scale)) ∧
    g.drawH = max 1 (jsRound ((srcH : ℚ) * g.scale)) ∧
    g.dx = jsRound (((W : ℤ) - g.drawW : ℤ) / (2 : ℚ)) ∧
    g.dy = jsRound (((H : ℤ) - g.drawH : ℤ) / (2 : ℚ)) := by
  cases fit <;> simp [rasterGeometry, mul_comm]

/-- An operation recorded on the 2D drawing surface. The drawing surface is
an external collaborator (§6); the embedding records the calls `rasterize`
makes on it, in order. -/
inductive DrawOp where
  | fillRect (color : String) (x y w h : ℤ)
  | clearRect (x y w h : ℤ)
  | drawImage (dx dy drawW drawH : ℤ)
deriving DecidableEq, Repr

/-- The canvas allocated by `rasterize`: its pixel dimensions (set once via
`canvas.width = width; canvas.height = height` and never changed) and the
recorded drawing operations. -/
structure Canvas where
  width : ℕ
  height : ℕ
  ops : List DrawOp
deriving DecidableEq, Repr

/-- The encoded image buffer returned by `canvas.toBlob`. Per the
collaborator contract (§6), encoding a canvas yields a buffer whose decoded
pixel dimensions are the canvas's. -/
structure EncodedImage where
  width : ℕ
  height : ℕ
  bytes : List ℕ
deriving DecidableEq, Repr

/-- `rasterize` (icon-lab.tsx lines 274–333): allocate a `W×H` canvas, fill
it with the background color when one is given (else clear it), draw the
source image at the geometry of `rasterGeometry`, and encode the canvas.
`encode` is the external `canvas.toBlob` collaborator: it may fail (encode
failure) or return the byte content of the encoded canvas. -/
def rasterizeM (encode : Canvas → Format → Except String (List ℕ))
    (source : LoadedSource) (width height : ℕ) (fit : FitMode)
    (paddingRatio : ℚ) (background : Option String) (format : Format) :
    Except String EncodedImage :=
  let c0 : Canvas := ⟨width, height, []⟩
  let c1 : Canvas :=
    match background with
    | some b => { c0 with ops := c0.ops ++ [DrawOp.fillRect b 0 0 width height] }
    | none => { c0 with ops := c0.ops ++ [DrawOp.clearRect 0 0 width height] }
  let g := rasterGeometry width height fit paddingRatio source.width source.height
  let c2 : Canvas := { c1 with ops := c1.ops ++ [DrawOp.drawImage g.dx g.dy g.drawW g.drawH] }
  (encode c2 format).map fun bytes => ⟨c2.width, c2.height, bytes⟩

/-- **C2** — For every positive target `W×H`, padding ratio in `[0, 1/2)`,
fit mode, source image and encoder: whenever `rasterize` succeeds, the
encoded image buffer it returns has pixel dimensions exactly `W` by `H`. -/
theorem rasterize_output_dimensions
    (encode : Canvas → Format → Except String (List ℕ))
    (source : LoadedSource) (W H : ℕ) (fit : FitMode) (p : ℚ)
    (background : Option String) (format : Format) (img : EncodedImage)
    (hW : 0 < W) (hH : 0 < H) (hp0 : 0 ≤ p) (hp1 : p < 1/2)
    (h : rasterizeM encode source W H fit p background format = Except.ok img) :
    img.width = W ∧ img.height = H := by
  have mapok : ∀ {α β : Type} (f : α → β) (e : Except String α) (b : β),
      e.map f = Except.ok b → ∃ a, e = Except.ok a ∧ b = f a := by
    intro α β f e b hme
    cases e with
    | error _ => simp [Except.map] at hme
    | ok a => exact ⟨a, rfl, by simpa [Except.map] using hme.symm⟩
  unfold rasterizeM at h
  cases background with
  | none =>
      obtain ⟨bytes, -, rfl⟩ := mapok _ _ _ h
      exact ⟨rfl, rfl⟩
  | some b =>
      obtain ⟨bytes, -, rfl⟩ := mapok _ _ _ h
      exact ⟨rfl, rfl⟩

/-- Witness for `rasterize_output_dimensions` at a concrete input. -/
theorem rasterize_output_dimensions_witness :
    (0 : ℕ) < 16 ∧ (0 : ℕ) < 16 ∧ (0 : ℚ) ≤ 1/10 ∧ (1/10 : ℚ) < 1/2 ∧
    ((16 : ℕ) = 16 ∧ (16 : ℕ) = 16) := by
  refine ⟨by norm_num, by norm_num, by norm_num, by norm_num, ?_⟩
  exact rasterize_output_dimensions (fun _ _ => Except.ok [0]) ⟨32, 32⟩ 16 16
    FitMode.contain (1/10) none Format.png ⟨16, 16, [0]⟩
    (by norm_num) (by norm_num) (by norm_num) (by norm_num) rfl

/-- **C9 counterexample** — At `W = H = 100`, `p = 7/10` (outside
`[0, 0.5)`), source `100×100`: `rasterize` succeeds (no rejection — with an
always-succeeding encoder the call returns `ok`, and the embedded code has
no validation path at all), and the padding actually used is `70` pixels.
Any clamped ratio `p' < 1/2` would give `round(100·p') ≤ 50`, so a padding
of `70` proves the ratio was used unclamped. Hence padding ratios outside
`[0, 0.5)` are neither rejected nor clamped, refuting the first half of the
claim. -/
theorem paddingRatio_not_rejected_or_clamped :
    (rasterGeometry 100 100 FitMode.contain (7/10) 100 100).padding = 70 ∧
    jsRound ((100 : ℚ) * (1/2)) = 50 ∧
    (rasterizeM (fun _ _ => Except.ok []) ⟨100, 100⟩ 100 100 FitMode.contain
        (7/10) none Format.png).isOk = true := by
  refine ⟨?_, ?_, rfl⟩ <;> norm_num [rasterGeometry, jsRound]

/-- **C9 (amended)** — The Rasterizer neither rejects nor clamps padding
ratios outside `[0, 0.5)`; instead, the `max(1, ·)` floors on the inner
target box and on the draw size guarantee that for *every* padding ratio
(in range or not) the computed geometry is never inverted: the inner
target box and the draw size always have width and height at least 1. -/
theorem rasterGeometry_never_inverted (W H : ℕ) (fit : FitMode) (p : ℚ)
    (srcW srcH : ℕ) :
    1 ≤ (rasterGeometry W H fit p srcW srcH).targetW ∧
    1 ≤ (rasterGeometry W H fit p srcW srcH).targetH ∧
    1 ≤ (rasterGeometry W H fit p srcW srcH).drawW ∧
    1 ≤ (rasterGeometry W H fit p srcW srcH).drawH := by
  refine ⟨?_, ?_, ?_, ?_⟩ <;> simp [rasterGeometry]

/-- `output.fit ?? fit` in `generatePackFiles`: the descriptor-level fit
when present, else the caller-supplied global fit. -/
def resolveFit (descriptor : Option FitMode) (global : FitMode) : FitMode :=
  descriptor.getD global

/-- `output.paddingRatio ?? paddingRatio` in `generatePackFiles`: the
descriptor-level padding ratio when present, else the global one. -/
def resolvePadding (descriptor : Option ℚ) (global : ℚ) : ℚ :=
  descriptor.getD global

/-- `output.background ?? background` in `generatePackFiles`. The
descriptor field has type `string | null | undefined`, modelled as
`Option (Option String)`: `none` = absent (`undefined`), `some none` =
explicit `null` (transparent), `some (some c)` = a color. JavaScript's
`??` falls through on *both* `null` and `undefined`, so a descriptor-level
`null` falls back to the global background. -/
def resolveBackground (descriptor : Option (Option String))
    (global : Option String) : Option String :=
  match descriptor with
  | some (some c) => some c
  | some none => global
  | none => global

/-- **C5 counterexample** — A descriptor background override whose value
denotes transparency (`null`, i.e. `some none`) does *not* take precedence
over the global default: with global background `"#ffffff"`, the resolved
background is `"#ffffff"`, not transparent. The claim asserts the
descriptor override (including the transparency value) always wins, which
would require the result `none`. -/
theorem resolveBackground_null_override_loses :
    resolveBackground (some none) (some "#ffffff") = some "#ffffff" ∧
    resolveBackground (some none) (some "#ffffff") ≠ none := by
  exact ⟨rfl, by simp [resolveBackground]⟩

/-- **C5 (amended)** — Per-descriptor resolution as the code implements it:
fit and padding ratio take the descriptor-level value when present and
otherwise the caller-supplied global default; a descriptor background
override carrying a *color* takes precedence over the global default, but
a descriptor background set to the transparency value (`null`) is treated
like an absent override and falls back to the global default. -/
theorem resolveParams_descriptor_precedence (f : FitMode) (g : FitMode)
    (q : ℚ) (r : ℚ) (c : String) (bg : Option String) :
    resolveFit (some f) g = f ∧
    resolveFit none g = g ∧
    resolvePadding (some q) r = q ∧
    resolvePadding none r = r ∧
    resolveBackground (some (some c)) bg = some c ∧
    resolveBackground none bg = bg ∧
    resolveBackground (some none) bg = bg := by
  exact ⟨rfl, rfl, rfl, rfl, rfl, rfl, rfl⟩

/-- A `RasterOutput` descriptor (packs.ts lines 19–29). Optional fields are
`Option`; `background` is `Option (Option String)` because the TS type is
`string | null | undefined`. -/
structure RasterOutput where
  path : String
  width : ℕ
  height : ℕ
  format : Format
  fit : Option FitMode := none
  paddingRatio : Option ℚ := none
  background : Option (Option String) := none
  warnOverBytes : Option ℕ := none
deriving DecidableEq, Repr

/-- An `IcoOutput` descriptor (packs.ts lines 31–38). -/
structure IcoOutput where
  path : String
  sizes : List ℕ
  paddingRatio : Option ℚ := none
  background : Option (Option String) := none
  warnOverBytes : Option ℕ := none
deriving DecidableEq, Repr

/-- A `TextOutput` descriptor (packs.ts line 40). -/
structure TextOutput where
  path : String
  content : String
deriving DecidableEq, Repr

/-- `MakeIconOutput = RasterOutput | IcoOutput | TextOutput`
(packs.ts line 42). -/
inductive MakeIconOutput where
  | raster (o : RasterOutput)
  | ico (o : IcoOutput)
  | text (o : TextOutput)
deriving DecidableEq, Repr

/-- A pack specification: its identifier and ordered output descriptors
(packs.ts lines 44–61; the human-readable metadata fields — name, summary,
category, badges, keywords — are not consumed by the generation pipeline
and are omitted). -/
structure MakeIconPackSpec where
  id : String
  outputs : List MakeIconOutput
deriving DecidableEq, Repr

/-- A `(relative path, bytes)` pair destined for the archive (`ZipFile`). -/
structure ZipFile where
  path : String
  bytes : List ℕ
deriving DecidableEq, Repr

/-- UTF-8 encoding of a text descriptor's content
(`new TextEncoder().encode(output.content)`). -/
def textBytes (s : String) : List ℕ :=
  (s.data.flatMap String.utf8EncodeChar).map UInt8.toNat

/-- A 16-bit little-endian field as two bytes. -/
def bytesLE16 (n : ℕ) : List ℕ := [n % 256, n / 256 % 256]

/-- A 32-bit little-endian field as four bytes. -/
def bytesLE32 (n : ℕ) : List ℕ :=
  [n % 256, n / 256 % 256, n / 65536 % 256, n / 16777216 % 256]

/-- One 16-byte ICO directory entry for an image whose payload starts at
`offset`: 1-byte width and height (`256` wraps to the reserved `0` via
`% 256`), palette-color count `0`, reserved `0`, color planes `1`,
bits-per-pixel `32`, payload size, payload offset. -/
def icoDirEntry (img : EncodedImage) (offset : ℕ) : List ℕ :=
  [img.width % 256, img.height % 256, 0, 0] ++ bytesLE16 1 ++ bytesLE16 32 ++
    bytesLE32 img.bytes.length ++ bytesLE32 offset

/-- Directory entries and concatenated payloads for a list of images, the
first payload starting at `offset`. -/
def icoEntries : List EncodedImage → ℕ → List ℕ × List ℕ
  | [], _ => ([], [])
  | img :: rest, offset =>
    let tail := icoEntries rest (offset + img.bytes.length)
    (icoDirEntry img offset ++ tail.1, img.bytes ++ tail.2)

/-- Modelled from the spec: the ICO container serialization that
`buildIcoFromPngs` (icon-lab.tsx lines 335–343) delegates to the external
`@fiahfy/ico` library (`new Ico()` / `ico.append` / `ico.data`), whose
source is not part of this repository. The byte layout follows §6 of the
spec: a 6-byte header (2 reserved zero bytes, 2-byte type `1`, 2-byte
image count), one 16-byte directory entry per image, then the raw PNG
payloads in directory order, the first at offset `6 + 16·N`. -/
def icoData (images : List EncodedImage) : List ℕ :=
  let n := images.length
  let entries := icoEntries images (6 + 16 * n)
  [0, 0] ++ bytesLE16 1 ++ bytesLE16 n ++ entries.1 ++ entries.2

/-- `buildIcoFromPngs` (icon-lab.tsx lines 335–343): append each PNG to the
container and serialize. Faithful to the source, there is no emptiness
check, and serialization itself never fails. -/
def buildIcoFromPngsM (pngs : List EncodedImage) : Except String (List ℕ) :=
  Except.ok (icoData pngs)

/-- The size-limit warning string of `generatePackFiles`:
`path + " is " + Math.round(size/1024) + "KB (limit ~" +
Math.round(limit/1024) + "KB)"`. -/
def warnMsg (path : String) (size limit : ℕ) : String :=
  path ++ " is " ++ toString (jsRound ((size : ℚ) / 1024)) ++
    "KB (limit ~" ++ toString (jsRound ((limit : ℚ) / 1024)) ++ "KB)"

/-- The warning emitted for one descriptor:
`if (output.warnOverBytes && blob.size > output.warnOverBytes)`. JS
truthiness means a threshold of `0` never warns. -/
def sizeWarning (path : String) (warnOverBytes : Option ℕ) (size : ℕ) :
    List String :=
  match warnOverBytes with
  | some t => if t ≠ 0 ∧ t < size then [warnMsg path size t] else []
  | none => []

/-- The body of `generatePackFiles`' per-descriptor loop
(icon-lab.tsx lines 1495–1553): a text descriptor yields its UTF-8 bytes;
a raster descriptor resolves fit/padding/background against the caller's
globals, rasterizes, and may add a size warning; an ico descriptor
rasterizes every size with `fit = contain`, builds the container, and may
add a size warning. Returns the files and warnings contributed by this
descriptor, or the encode error that aborted it. -/
def processOutput (encode : Canvas → Format → Except String (List ℕ))
    (source : LoadedSource) (fit : FitMode) (paddingRatio : ℚ)
    (background : Option String) (baseDir : String) :
    MakeIconOutput → Except String (List ZipFile × List String)
  | MakeIconOutput.text t =>
      Except.ok ([⟨baseDir ++ t.path, textBytes t.content⟩], [])
  | MakeIconOutput.raster r =>
      (rasterizeM encode source r.width r.height (resolveFit r.fit fit)
          (resolvePadding r.paddingRatio paddingRatio)
          (resolveBackground r.background background) r.format).map fun img =>
        ([⟨baseDir ++ r.path, img.bytes⟩],
          sizeWarning r.path r.warnOverBytes img.bytes.length)
  | MakeIconOutput.ico io =>
      (io.sizes.mapM fun s =>
          rasterizeM encode source s s FitMode.contain
            (resolvePadding io.paddingRatio paddingRatio)
            (resolveBackground io.background background) Format.png).bind
        fun pngs =>
          (buildIcoFromPngsM pngs).map fun data =>
            ([⟨baseDir ++ io.path, data⟩],
              sizeWarning io.path io.warnOverBytes data.length)

/-- The descriptor loop of `generatePackFiles`, with the `files` and
`warnings` accumulators explicit. A thrown encode error propagates:
the loop stops and the caller receives only the error. -/
def generateGo (encode : Canvas → Format → Except String (List ℕ))
    (source : LoadedSource) (fit : FitMode) (paddingRatio : ℚ)
    (background : Option String) (baseDir : String) :
    List MakeIconOutput → List ZipFile → List String →
    Except String (List ZipFile × List String)
  | [], files, warnings => Except.ok (files, warnings)
  | o :: rest, files, warnings =>
      match processOutput encode source fit paddingRatio background baseDir o with
      | Except.error e => Except.error e
      | Except.ok (fs, ws) =>
          generateGo encode source fit paddingRatio background baseDir rest
            (files ++ fs) (warnings ++ ws)

/-- `generatePackFiles` (icon-lab.tsx lines 1478–1556): walk the pack's
output descriptors in order, collecting files and warnings. -/
def generatePackFilesM (encode : Canvas → Format → Except String (List ℕ))
    (pack : MakeIconPackSpec) (baseDir : String) (source : LoadedSource)
    (fit : FitMode) (paddingRatio : ℚ) (background : Option String) :
    Except String (List ZipFile × List String) :=
  generateGo encode source fit paddingRatio background baseDir pack.outputs [] []

/-- **C7 counterexample** — Given zero input images the Container Builder
does *not* fail: `buildIcoFromPngs []` succeeds, refuting the claim that an
empty image list is rejected (raises an error) before writing. -/
theorem buildIco_empty_not_rejected :
    (buildIcoFromPngsM []).isOk = true := rfl

/-- **C7 (amended)** — The Container Builder never rejects its input list:
for every list of already-encoded images it succeeds with the serialized
container, and in particular on the empty list it produces (rather than
rejects) a zero-entry container buffer — the bare 6-byte header
`[0, 0, 1, 0, 0, 0]` declaring image count `0`. -/
theorem buildIco_accepts_empty_list (pngs : List EncodedImage) :
    buildIcoFromPngsM pngs = Except.ok (icoData pngs) ∧
    buildIcoFromPngsM [] = Except.ok [0, 0, 1, 0, 0, 0] := by
  exact ⟨rfl, rfl⟩

/-- **C6 counterexample** — A pack with two raster descriptors, under an
encoder that fails: `generatePackFiles` returns the encode error for the
whole pack — the sibling descriptor `"b.png"` is never attempted and no
files at all are returned, refuting the claim that a failure aborts only
the single descriptor while siblings still complete. -/
theorem encode_failure_aborts_whole_pack :
    generatePackFilesM (fun _ _ => Except.error "Encode failed.")
      ⟨"p",
        [MakeIconOutput.raster ⟨"a.png", 16, 16, Format.png, none, none, none, none⟩,
         MakeIconOutput.raster ⟨"b.png", 32, 32, Format.png, none, none, none, none⟩]⟩
      "" ⟨64, 64⟩ FitMode.contain 0 none = Except.error "Encode failed." := rfl

/-- **C6 (amended)** — When processing one descriptor fails (e.g. its
encoding fails), `generatePackFiles` aborts the *entire pack*: whatever
descriptors surround the failing one, the call returns an error, so no
file list is delivered and sibling descriptors after the failure are never
attempted (the export as a whole then fails in the caller's `catch`). -/
theorem descriptor_failure_aborts_pack
    (encode : Canvas → Format → Except String (List ℕ))
    (source : LoadedSource) (fit : FitMode) (paddingRatio : ℚ)
    (background : Option String) (baseDir : String) (packId : String)
    (outs₁ outs₂ : List MakeIconOutput) (o : MakeIconOutput) (e : String)
    (h : processOutput encode source fit paddingRatio background baseDir o =
      Except.error e) :
    ∃ e', generatePackFilesM encode ⟨packId, outs₁ ++ o :: outs₂⟩ baseDir
      source fit paddingRatio background = Except.error e' := by
  have key : ∀ (outs₁ : List MakeIconOutput) (files : List ZipFile)
      (warnings : List String),
      ∃ e', generateGo encode source fit paddingRatio background baseDir
        (outs₁ ++ o :: outs₂) files warnings = Except.error e' := by
    intro outs₁
    induction outs₁ with
    | nil =>
        intro files warnings
        refine ⟨e, ?_⟩
        simp only [List.nil_append, generateGo, h]
    | cons a rest ih =>
        intro files warnings
        simp only [List.cons_append, generateGo]
        cases ha : processOutput encode source fit paddingRatio background baseDir a with
        | error e'' => exact ⟨e'', rfl⟩
        | ok p => exact ih _ _
  exact key outs₁ [] []

/-- Witness for `descriptor_failure_aborts_pack` at a concrete input: a
failing encoder, one failing raster descriptor surrounded by a text
descriptor before it and a raster descriptor after it. -/
theorem descriptor_failure_aborts_pack_witness :
    ∃ e', generatePackFilesM (fun _ _ => Except.error "boom")
      ⟨"w", [MakeIconOutput.text ⟨"t.txt", "x"⟩] ++
        MakeIconOutput.raster ⟨"a.png", 16, 16, Format.png, none, none, none, none⟩ ::
        [MakeIconOutput.raster ⟨"b.png", 32, 32, Format.png, none, none, none, none⟩]⟩
      "" ⟨64, 64⟩ FitMode.contain 0 none = Except.error e' :=
  descriptor_failure_aborts_pack (fun _ _ => Except.error "boom")
    ⟨64, 64⟩ FitMode.contain 0 none "" "w"
    [MakeIconOutput.text ⟨"t.txt", "x"⟩]
    [MakeIconOutput.raster ⟨"b.png", 32, 32, Format.png, none, none, none, none⟩]
    (MakeIconOutput.raster ⟨"a.png", 16, 16, Format.png, none, none, none, none⟩)
    "boom" rfl

/-- **C8 counterexample** — A raster descriptor whose `warnOverBytes`
threshold is set to `0`, with an encoded output of 1 byte: the size
exceeds the threshold, yet *no* warning is appended (the code's JS
truthiness check `output.warnOverBytes && …` treats a `0` threshold as
unset), refuting the claimed "if and only if". The export still succeeds
and includes the file. -/
theorem zero_threshold_never_warns :
    processOutput (fun _ _ => Except.ok [7]) ⟨64, 64⟩ FitMode.contain 0 none ""
      (MakeIconOutput.raster ⟨"zero.png", 16, 16, Format.png, none, none, none, some 0⟩) =
      Except.ok ([⟨"zero.png", [7]⟩], []) := rfl

/-- **C8 (amended)** — For every Raster or IconContainer descriptor whose
`warnOverBytes` threshold is set *and nonzero* (JS truthiness treats a `0`
threshold as unset): if and only if the encoded output's byte size exceeds
the threshold, exactly one warning string is appended, naming the
descriptor's path, the actual size and the threshold in KB (rounded); the
warning never blocks the descriptor, which still succeeds and contributes
the oversized file. -/
theorem warnOverBytes_warning_iff
    (encode : Canvas → Format → Except String (List ℕ))
    (source : LoadedSource) (fit : FitMode) (paddingRatio : ℚ)
    (background : Option String) (baseDir : String) :
    (∀ (r : RasterOutput) (t : ℕ) (img : EncodedImage),
      r.warnOverBytes = some t → t ≠ 0 →
      rasterizeM encode source r.width r.height (resolveFit r.fit fit)
        (resolvePadding r.paddingRatio paddingRatio)
        (resolveBackground r.background background) r.format = Except.ok img →
      processOutput encode source fit paddingRatio background baseDir
          (MakeIconOutput.raster r) =
        Except.ok ([⟨baseDir ++ r.path, img.bytes⟩],
          if t < img.bytes.length then [warnMsg r.path img.bytes.length t]
          else [])) ∧
    (∀ (io : IcoOutput) (t : ℕ) (pngs : List EncodedImage),
      io.warnOverBytes = some t → t ≠ 0 →
      (io.sizes.mapM fun s =>
        rasterizeM encode source s s FitMode.contain
          (resolvePadding io.paddingRatio paddingRatio)
          (resolveBackground io.background background) Format.png) =
        Except.ok pngs →
      processOutput encode source fit paddingRatio background baseDir
          (MakeIconOutput.ico io) =
        Except.ok ([⟨baseDir ++ io.path, icoData pngs⟩],
          if t < (icoData pngs).length then
            [warnMsg io.path (icoData pngs).length t]
          else [])) := by
  constructor
  · intro r t img hw ht hr
    simp only [processOutput, hr, Except.map, sizeWarning, hw]
    by_cases hlt : t < img.bytes.length
    · simp [hlt, ht]
    · simp [hlt]
  · intro io t pngs hw ht hm
    simp only [processOutput, hm, Except.bind, buildIcoFromPngsM, Except.map,
      sizeWarning, hw]
    by_cases hlt : t < (icoData pngs).length
    · simp [hlt, ht]
    · simp [hlt]

/-- Witness for `warnOverBytes_warning_iff`, realizing the spec's
end-to-end scenario: a raster descriptor with `warnOverBytes = 131072`
(128KB) whose encoded output is 153600 bytes (150KB) — the descriptor
succeeds, contributes the file, and appends exactly one warning naming the
path, `150KB`, and the `128KB` limit. -/
theorem warnOverBytes_warning_iff_witness :
    processOutput (fun _ _ => Except.ok (List.replicate 153600 7))
      ⟨1024, 1024⟩ FitMode.contain 0 none ""
      (MakeIconOutput.raster
        ⟨"big.png", 192, 192, Format.png, none, none, none, some 131072⟩) =
      Except.ok ([⟨"big.png", List.replicate 153600 7⟩],
        [warnMsg "big.png" 153600 131072]) := by
  have h := (warnOverBytes_warning_iff
      (fun _ _ => Except.ok (List.replicate 153600 7))
      ⟨1024, 1024⟩ FitMode.contain 0 none "").1
      ⟨"big.png", 192, 192, Format.png, none, none, none, some 131072⟩
      131072 ⟨192, 192, List.replicate 153600 7⟩ rfl (by norm_num) rfl
  rw [List.length_replicate] at h
  rw [if_pos (by norm_num)] at h
  have e : ("" : String) ++ "big.png" = "big.png" := rfl
  rw [e] at h
  exact h

/-- A JavaScript `Date` value as constructed by `new Date(year,
monthIndex, day)`; only the three constructor arguments are relevant. -/
structure JsDate where
  year : ℕ
  monthIndex : ℕ
  day : ℕ
deriving DecidableEq, Repr

/-- One store into the plain JS object `entries`
(`entries[file.path] = file.bytes`): when the key already exists its value
is replaced in place (keeping the original key position), otherwise the
pair is appended. -/
def insertJS (entries : List (String × List ℕ)) (k : String) (v : List ℕ) :
    List (String × List ℕ) :=
  if k ∈ entries.map Prod.fst then
    entries.map fun e => if e.1 = k then (e.1, v) else e
  else entries ++ [(k, v)]

/-- The `entries` record built by `buildZip`'s loop
(`for (const file of files) entries[file.path] = file.bytes`). -/
def entriesOfFiles (files : List ZipFile) : List (String × List ℕ) :=
  files.foldl (fun m f => insertJS m f.path f.bytes) []

/-- Value lookup in the `entries` record: the value of the first pair
carrying the key. -/
def entryLookup (k : String) : List (String × List ℕ) → Option (List ℕ)
  | [] => none
  | e :: rest => if e.1 = k then some e.2 else entryLookup k rest

/-- `buildZip` (icon-lab.tsx lines 345–353): build the `entries` record
from the file list and serialize it with `zipSync` at compression level 7
and the fixed modification timestamp `new Date(2026, 0, 21)`. The `fflate`
serializer is external to the repository, so it is a parameter `zipImpl`;
`now` is the ambient wall-clock date, which the code never reads. -/
def buildZipM (zipImpl : List (String × List ℕ) → ℕ → JsDate → List ℕ)
    (now : JsDate) (files : List ZipFile) : List ℕ :=
  zipImpl (entriesOfFiles files) 7 ⟨2026, 0, 21⟩

/-- **C4** — The Archive Assembler is deterministic: for every zip
serializer implementation and every ordered entry list, two runs of
`buildZip` at arbitrary (different) wall-clock dates produce byte-identical
output, because the serializer is invoked on the same entries with the
fixed compression level `7` and the fixed constant timestamp
`new Date(2026, 0, 21)` — never the ambient date. -/
theorem buildZip_deterministic
    (zipImpl : List (String × List ℕ) → ℕ → JsDate → List ℕ)
    (t₁ t₂ : JsDate) (files : List ZipFile) :
    buildZipM zipImpl t₁ files = buildZipM zipImpl t₂ files ∧
    buildZipM zipImpl t₁ files = zipImpl (entriesOfFiles files) 7 ⟨2026, 0, 21⟩ :=
  ⟨rfl, rfl⟩

end MakeIcon

namespace MakeIcon

/-- Replacing the value at key `k` preserves the key list. -/
theorem keys_insertJS_of_mem (m : List (String × List ℕ)) (k : String)
    (v : List ℕ) (h : k ∈ m.map Prod.fst) :
    (insertJS m k v).map Prod.fst = m.map Prod.fst := by
  simp only [insertJS, if_pos h, List.map_map]
  refine List.map_congr_left ?_
  intro e _
  by_cases he : e.1 = k <;> simp [he]

/-- After `insertJS m k v`, the key `k` is present. -/
theorem mem_keys_insertJS_self (m : List (String × List ℕ)) (k : String)
    (v : List ℕ) : k ∈ (insertJS m k v).map Prod.fst := by
  by_cases h : k ∈ m.map Prod.fst
  · rw [keys_insertJS_of_mem m k v h]; exact h
  · simp [insertJS, h]

/-- `insertJS` never removes keys. -/
theorem keys_insertJS_mono (m : List (String × List ℕ)) (k : String)
    (v : List ℕ) (k' : String) (h : k' ∈ m.map Prod.fst) :
    k' ∈ (insertJS m k v).map Prod.fst := by
  by_cases hk : k ∈ m.map Prod.fst
  · rw [keys_insertJS_of_mem m k v hk]; exact h
  · simp only [insertJS, if_neg hk, List.map_append, List.mem_append]
    exact Or.inl h

/-- `insertJS` grows the record only when the key is new. -/
theorem length_insertJS (m : List (String × List ℕ)) (k : String)
    (v : List ℕ) :
    (insertJS m k v).length =
      if k ∈ m.map Prod.fst then m.length else m.length + 1 := by
  by_cases h : k ∈ m.map Prod.fst <;> simp [insertJS, h]

/-- Looking up a key other than the replaced one is unchanged by the
value-replacing map. -/
theorem lookup_map_replace_ne (m : List (String × List ℕ)) (k k' : String)
    (v : List ℕ) (hne : k' ≠ k) :
    entryLookup k' (m.map fun e => if e.1 = k then (e.1, v) else e) =
      entryLookup k' m := by
  induction m with
  | nil => rfl
  | cons a m ih =>
      by_cases ha : a.1 = k'
      · have hak : a.1 ≠ k := fun h => hne (ha.symm.trans h)
        rw [List.map_cons, if_neg hak]
        simp [entryLookup, ha]
      · by_cases hak : a.1 = k
        · rw [List.map_cons, if_pos hak]
          have h1 : (a.1, v).1 ≠ k' := ha
          simp only [entryLookup, if_neg h1, if_neg ha]
          exact ih
        · rw [List.map_cons, if_neg hak]
          simp only [entryLookup, if_neg ha]
          exact ih

/-- Looking up the replaced key yields the new value, provided the key was
present. -/
theorem lookup_map_replace_eq (m : List (String × List ℕ)) (k : String)
    (v : List ℕ) (h : k ∈ m.map Prod.fst) :
    entryLookup k (m.map fun e => if e.1 = k then (e.1, v) else e) =
      some v := by
  induction m with
  | nil => simp at h
  | cons a m ih =>
      by_cases ha : a.1 = k
      · rw [List.map_cons, if_pos ha]
        have h1 : (a.1, v).1 = k := ha
        simp only [entryLookup, if_pos h1]
      · have h' : k ∈ m.map Prod.fst := by
          rcases List.mem_map.mp h with ⟨e, he, hek⟩
          rcases List.mem_cons.mp he with rfl | hem
          · exact absurd hek ha
          · exact List.mem_map.mpr ⟨e, hem, hek⟩
        rw [List.map_cons, if_neg ha]
        simp only [entryLookup, if_neg ha]
        exact ih h'

/-- Appending a fresh key: lookups of that key find the new pair, other
lookups are unchanged. -/
theorem lookup_append_new (m : List (String × List ℕ)) (k k' : String)
    (v : List ℕ) (hmem : k ∉ m.map Prod.fst) :
    entryLookup k' (m ++ [(k, v)]) =
      if k' = k then some v else entryLookup k' m := by
  induction m with
  | nil =>
      by_cases hk : k' = k
      · simp [entryLookup, hk]
      · have hk' : ¬ k = k' := fun h => hk h.symm
        simp [entryLookup, hk, hk']
  | cons a m ih =>
      have hak : a.1 ≠ k := fun h =>
        hmem (List.mem_map.mpr ⟨a, List.mem_cons_self a m, h⟩)
      have hmem' : k ∉ m.map Prod.fst := fun h =>
        hmem (by rw [List.map_cons]; exact List.mem_cons_of_mem _ h)
      by_cases ha : a.1 = k'
      · have hk : k' ≠ k := fun h => hak (ha.trans h)
        simp [entryLookup, ha, hk]
      · simp only [List.cons_append, entryLookup, if_neg ha]
        exact ih hmem'

/-- `insertJS` has JS-object store semantics for lookups: the stored key
now maps to the new value, all other keys are untouched. -/
theorem lookup_insertJS (m : List (String × List ℕ)) (k k' : String)
    (v : List ℕ) :
    entryLookup k' (insertJS m k v) =
      if k' = k then some v else entryLookup k' m := by
  unfold insertJS
  by_cases hmem : k ∈ m.map Prod.fst
  · rw [if_pos hmem]
    by_cases hk : k' = k
    · subst hk
      rw [if_pos rfl]
      exact lookup_map_replace_eq m k' v hmem
    · rw [if_neg hk]
      exact lookup_map_replace_ne m k k' v hk
  · rw [if_neg hmem]
    exact lookup_append_new m k k' v hmem

/-- The step function of `buildZip`'s loop. -/
def zipStep (m : List (String × List ℕ)) (f : ZipFile) :
    List (String × List ℕ) :=
  insertJS m f.path f.bytes

/-- The record never grows faster than one entry per file. -/
theorem length_foldl_zipStep_le (files : List ZipFile) :
    ∀ m, (files.foldl zipStep m).length ≤ m.length + files.length := by
  induction files with
  | nil => intro m; simp
  | cons f fs ih =>
      intro m
      calc ((f :: fs).foldl zipStep m).length
          = (fs.foldl zipStep (zipStep m f)).length := rfl
        _ ≤ (zipStep m f).length + fs.length := ih _
        _ ≤ (m.length + 1) + fs.length := by
            have := length_insertJS m f.path f.bytes
            unfold zipStep
            rw [this]
            split <;> omega
        _ = m.length + (f :: fs).length := by simp; omega

/-- Keys present in the record survive the rest of the loop. -/
theorem mem_keys_foldl_zipStep (files : List ZipFile) :
    ∀ m k, k ∈ m.map Prod.fst → k ∈ (files.foldl zipStep m).map Prod.fst := by
  induction files with
  | nil => intro m k h; exact h
  | cons f fs ih =>
      intro m k h
      exact ih _ k (keys_insertJS_mono m f.path f.bytes k h)

/-- Every path of a processed file is a key of the resulting record. -/
theorem path_mem_keys_foldl_zipStep (files : List ZipFile) :
    ∀ m f, f ∈ files → f.path ∈ (files.foldl zipStep m).map Prod.fst := by
  induction files with
  | nil => intro m f h; simp at h
  | cons g fs ih =>
      intro m f h
      rcases List.mem_cons.mp h with rfl | hmem
      · exact mem_keys_foldl_zipStep fs _ f.path
          (mem_keys_insertJS_self m f.path f.bytes)
      · exact ih _ f hmem

/-- In the record built by `buildZip`, each key maps to the bytes of the
*last* file in the input list with that path. -/
theorem lookup_entriesOfFiles (files : List ZipFile) (k : String) :
    entryLookup k (entriesOfFiles files) =
      ((files.filter fun f => f.path = k).getLast?).map ZipFile.bytes := by
  unfold entriesOfFiles
  induction files using List.reverseRecOn with
  | nil => rfl
  | append_singleton fs f ih =>
      rw [List.foldl_append]
      have hstep : (fun (m : List (String × List ℕ)) (g : ZipFile) =>
          insertJS m g.path g.bytes) = zipStep := rfl
      rw [List.filter_append]
      by_cases hp : f.path = k
      · have : List.filter (fun f => decide (f.path = k)) [f] = [f] := by
          simp [List.filter, hp]
        rw [this, List.getLast?_concat]
        simp only [List.foldl_cons, List.foldl_nil]
        rw [lookup_insertJS _ f.path k f.bytes, if_pos hp.symm]
        rfl
      · have : List.filter (fun f => decide (f.path = k)) [f] = [] := by
          simp [List.filter, hp]
        rw [this, List.append_nil]
        simp only [List.foldl_cons, List.foldl_nil]
        rw [lookup_insertJS _ f.path k f.bytes,
          if_neg (fun he => hp he.symm)]
        exact ih

/-- If some file's path already occurred earlier in the list, the record
ends up strictly smaller than the file list. -/
theorem length_entriesOfFiles_lt (files : List ZipFile) (j : ℕ)
    (hj : j < files.length)
    (hdup : files[j].path ∈ (files.take j).map ZipFile.path) :
    (entriesOfFiles files).length < files.length := by
  have hsplit : files = files.take j ++ files[j] :: files.drop (j + 1) := by
    conv_lhs => rw [← List.take_append_drop j files]
    rw [List.drop_eq_getElem_cons hj]
  have hlenA : (files.take j).length = j := by
    rw [List.length_take]; omega
  have hlenB : (files.drop (j + 1)).length = files.length - (j + 1) :=
    List.length_drop _ _
  rcases List.mem_map.mp hdup with ⟨g, hg, hgp⟩
  have hkey : files[j].path ∈
      ((files.take j).foldl zipStep []).map Prod.fst := by
    rw [← hgp]
    exact path_mem_keys_foldl_zipStep _ [] g hg
  have hstep_eq : zipStep ((files.take j).foldl zipStep []) files[j] =
      insertJS ((files.take j).foldl zipStep []) files[j].path files[j].bytes :=
    rfl
  have hstep_len : (zipStep ((files.take j).foldl zipStep []) files[j]).length =
      ((files.take j).foldl zipStep []).length := by
    rw [hstep_eq, length_insertJS, if_pos hkey]
  have hA : ((files.take j).foldl zipStep []).length ≤ j := by
    have := length_foldl_zipStep_le (files.take j) []
    simpa [hlenA] using this
  have hfull : (entriesOfFiles files).length ≤ j + (files.length - (j + 1)) := by
    unfold entriesOfFiles
    conv_lhs => rw [hsplit]
    have hrw : (fun (m : List (String × List ℕ)) (f : ZipFile) =>
        insertJS m f.path f.bytes) = zipStep := rfl
    rw [hrw, List.foldl_append, List.foldl_cons]
    calc ((files.drop (j + 1)).foldl zipStep
            (zipStep ((files.take j).foldl zipStep []) files[j])).length
        ≤ (zipStep ((files.take j).foldl zipStep []) files[j]).length +
            (files.drop (j + 1)).length := length_foldl_zipStep_le _ _
      _ = ((files.take j).foldl zipStep []).length +
            (files.length - (j + 1)) := by rw [hstep_len, hlenB]
      _ ≤ j + (files.length - (j + 1)) := by omega
  omega

/-- **C10** — `buildZip` stores its entries in a record keyed by relative
path: on an input list with two entries sharing a path (`i ≠ j`,
`files[i].path = files[j].path`) no error is raised — the assembler still
hands the record to the zip serializer — the record maps the shared path
to the bytes of the *last* entry with that path (the later entry silently
replaced the earlier one), and the record has strictly fewer entries than
the input list. -/
theorem buildZip_duplicate_path_semantics
    (zipImpl : List (String × List ℕ) → ℕ → JsDate → List ℕ) (now : JsDate)
    (files : List ZipFile) (i j : ℕ) (hi : i < files.length)
    (hj : j < files.length) (hij : i ≠ j)
    (hp : files[i].path = files[j].path) :
    (entriesOfFiles files).length < files.length ∧
    entryLookup files[j].path (entriesOfFiles files) =
      ((files.filter fun f => f.path = files[j].path).getLast?).map
        ZipFile.bytes ∧
    buildZipM zipImpl now files =
      zipImpl (entriesOfFiles files) 7 ⟨2026, 0, 21⟩ := by
  refine ⟨?_, lookup_entriesOfFiles files _, rfl⟩
  rcases Nat.lt_or_ge i j with hlt | hge
  · refine length_entriesOfFiles_lt files j hj ?_
    refine List.mem_map.mpr ⟨files[i], ?_, hp⟩
    have hi' : i < (files.take j).length := by rw [List.length_take]; omega
    have : (files.take j)[i] = files[i] := List.getElem_take files
    exact this ▸ List.getElem_mem hi'
  · have hlt : j < i := by omega
    refine length_entriesOfFiles_lt files i hi ?_
    refine List.mem_map.mpr ⟨files[j], ?_, hp.symm⟩
    have hj' : j < (files.take i).length := by rw [List.length_take]; omega
    have : (files.take i)[j] = files[j] := List.getElem_take files
    exact this ▸ List.getElem_mem hj'

/-- Witness for `buildZip_duplicate_path_semantics` at a concrete input:
two entries both named `"a"`, the record collapses to one entry holding
the later bytes `[2]`. -/
theorem buildZip_duplicate_path_semantics_witness :
    (entriesOfFiles [⟨"a", [1]⟩, ⟨"a", [2]⟩]).length < 2 ∧
    entryLookup "a" (entriesOfFiles [⟨"a", [1]⟩, ⟨"a", [2]⟩]) =
      (([⟨"a", [1]⟩, ⟨"a", [2]⟩] : List ZipFile).filter
        (fun f => f.path = "a")).getLast?.map ZipFile.bytes ∧
    buildZipM (fun es _ _ => es.flatMap Prod.snd) ⟨2026, 0, 21⟩
        [⟨"a", [1]⟩, ⟨"a", [2]⟩] =
      (entriesOfFiles [⟨"a", [1]⟩, ⟨"a", [2]⟩]).flatMap Prod.snd :=
  buildZip_duplicate_path_semantics (fun es _ _ => es.flatMap Prod.snd)
    ⟨2026, 0, 21⟩ [⟨"a", [1]⟩, ⟨"a", [2]⟩] 0 1 (by norm_num) (by norm_num)
    (by norm_num) rfl

end MakeIcon

namespace MakeIcon

/-- A catalog pack, projected to the two fields the Export Plan model
reads: its identifier and the ordered relative output paths of its
descriptors (`pack.id` and `pack.outputs[i].path` in packs.ts). -/
structure CatalogPack where
  id : String
  outputPaths : List String
deriving DecidableEq, Repr

/-- `androidMipmap(dir, size)` (packs.ts lines 629–648) contributes the
two launcher-icon paths for one density directory. -/
def androidMipmapPaths (dir : String) : List String :=
  ["android/" ++ dir ++ "/ic_launcher.png",
   "android/" ++ dir ++ "/ic_launcher_round.png"]

/-- The 18 icon filenames of `buildIosAppIconsetOutputs` (packs.ts lines
650–829), in declaration order. -/
def iosIconFilenames : List String :=
  ["icon-20@2x.png", "icon-20@3x.png", "icon-29@2x.png", "icon-29@3x.png",
   "icon-40@2x.png", "icon-40@3x.png", "icon-60@2x.png", "icon-60@3x.png",
   "icon-20@1x.png", "icon-20@2x-ipad.png", "icon-29@1x.png",
   "icon-29@2x-ipad.png", "icon-40@1x.png", "icon-40@2x-ipad.png",
   "icon-76@1x.png", "icon-76@2x.png", "icon-83.5@2x.png", "icon-1024.png"]

/-- The output paths generated by `buildIosAppIconsetOutputs`: one raster
per icon filename under `ios/AppIcon.appiconset/`, then the
`Contents.json` and `README.txt` text outputs. -/
def buildIosAppIconsetPaths : List String :=
  iosIconFilenames.map (fun f => "ios/AppIcon.appiconset/" ++ f) ++
    ["ios/AppIcon.appiconset/Contents.json", "ios/README.txt"]

/-- The `PACKS` catalog (packs.ts lines 117–610) projected to pack ids and
output paths, in object-literal declaration order. -/
def ALL_PACKS : List CatalogPack :=
  [⟨"web_favicon_pwa",
    ["favicon.ico", "favicon-16x16.png", "favicon-32x32.png",
     "apple-touch-icon.png", "android-chrome-192x192.png",
     "android-chrome-512x512.png", "maskable-192x192.png",
     "maskable-512x512.png", "site.webmanifest",
     "nextjs-metadata-snippet.ts"]⟩,
   ⟨"nextjs_app_router",
    ["src/app/favicon.ico", "src/app/icon.png", "src/app/apple-icon.png"]⟩,
   ⟨"chrome_extension",
    ["icons/icon-16.png", "icons/icon-32.png", "icons/icon-48.png",
     "icons/icon-128.png", "manifest-icons-snippet.json"]⟩,
   ⟨"slack_emoji", ["slack/emoji-128.png", "slack/README.txt"]⟩,
   ⟨"discord_emoji", ["discord/emoji-128.png", "discord/README.txt"]⟩,
   ⟨"firefox_addon",
    ["firefox/icon-48.png", "firefox/icon-96.png",
     "firefox/manifest-icons-snippet.json"]⟩,
   ⟨"vscode_extension",
    ["vscode/icon-128.png", "vscode/package-json-snippet.json"]⟩,
   ⟨"ios_app_iconset", buildIosAppIconsetPaths⟩,
   ⟨"android_app_icons",
    ["android/playstore-512.png"] ++
      androidMipmapPaths "mipmap-mdpi" ++ androidMipmapPaths "mipmap-hdpi" ++
      androidMipmapPaths "mipmap-xhdpi" ++
      androidMipmapPaths "mipmap-xxhdpi" ++
      androidMipmapPaths "mipmap-xxxhdpi" ++ ["android/README.txt"]⟩,
   ⟨"windows_tiles",
    ["windows/Square44x44Logo.png", "windows/Square71x71Logo.png",
     "windows/Square150x150Logo.png", "windows/Square310x310Logo.png",
     "windows/Wide310x150Logo.png", "windows/browserconfig.xml"]⟩,
   ⟨"vercel_integration", ["vercel/integration-logo-512.png"]⟩,
   ⟨"notion_icon", ["notion/icon-280.png"]⟩,
   ⟨"figma_widget", ["figma/widget-icon-128.png"]⟩,
   ⟨"github_social_preview", ["github/social-preview-1280x640.png"]⟩]

/-- `plannedPaths` (icon-lab.tsx lines 540–548): the flattened export path
list for the selected packs; when more than one pack is selected every
path is prefixed with `<pack-id>/`, otherwise paths are unprefixed. -/
def plannedPaths (selectedPacks : List CatalogPack) : List String :=
  selectedPacks.flatMap fun pk =>
    let base := if 1 < selectedPacks.length then pk.id ++ "/" else ""
    pk.outputPaths.map fun p => base ++ p

/-- `flatMap` is monotone with respect to sublists. -/
theorem flatMap_sublist {α β : Type} (f : α → List β) {l₁ l₂ : List α}
    (h : l₁.Sublist l₂) : (l₁.flatMap f).Sublist (l₂.flatMap f) := by
  induction h with
  | slnil => exact List.Sublist.refl _
  | cons a _ ih =>
      rw [List.flatMap_cons]
      exact ih.trans (List.sublist_append_right _ _)
  | cons₂ a _ ih =>
      rw [List.flatMap_cons, List.flatMap_cons]
      exact ih.append_left _

/-- Every catalog pack has duplicate-free output paths (per-pack
uniqueness, checked over the whole catalog). -/
theorem all_packs_paths_nodup :
    ∀ pk ∈ ALL_PACKS, pk.outputPaths.Nodup := by decide

/-- Prefixing every catalog path with its pack id yields a globally
duplicate-free list (cross-pack uniqueness under namespacing). -/
theorem all_packs_prefixed_nodup :
    (ALL_PACKS.flatMap fun pk =>
      pk.outputPaths.map fun p => pk.id ++ "/" ++ p).Nodup := by decide

/-- **C3** — For every selection of catalog packs (any boolean predicate
over pack ids, as produced by the selection model's `filter`), the
flattened `plannedPaths` list is duplicate-free: with more than one pack
selected every path is namespaced under `<pack-id>/` and the namespaced
catalog is globally duplicate-free; with exactly one pack selected the
unprefixed paths are duplicate-free by per-pack uniqueness. -/
theorem plannedPaths_nodup (selFlags : String → Bool) :
    (plannedPaths (ALL_PACKS.filter fun pk => selFlags pk.id)).Nodup := by
  have key : ∀ sel : List CatalogPack, sel.Sublist ALL_PACKS →
      (plannedPaths sel).Nodup := by
    intro sel hsub
    unfold plannedPaths
    by_cases hm : 1 < sel.length
    · simp only [if_pos hm]
      exact List.Nodup.sublist
        (flatMap_sublist
          (fun pk => pk.outputPaths.map fun p => pk.id ++ "/" ++ p) hsub)
        all_packs_prefixed_nodup
    · match sel, hsub with
      | [], _ => simp
      | [pk], hsub =>
          have hmem : pk ∈ ALL_PACKS := hsub.subset (List.mem_singleton_self pk)
          have hemp : ∀ p : String, ("" : String) ++ p = p := fun _ => rfl
          simp only [List.length_singleton, lt_irrefl, if_neg hm,
            List.flatMap_cons, List.flatMap_nil, List.append_nil, hemp,
            List.map_id]
          simpa using all_packs_paths_nodup pk hmem
      | pk₁ :: pk₂ :: rest, _ => simp at hm
  exact key _ (List.filter_sublist ALL_PACKS)

end MakeIcon
